import Mathlib

/-!
Verification of `python/prophet/models.py` (Stan backend abstraction layer of
the prophet forecasting library).

The Python module is embedded shallowly:

* Python dicts become association lists `List (String × β)` in insertion
  order (Python dicts preserve insertion order); `dict.get`, `dict[k]` and
  `dict[k] = v` become `dictLookup`, `dictGetE` and `dictSet`.
* numpy buffers handed to the column-name decoder are either 1-D or 2-D,
  modelled by `StanData`; general numpy arrays are modelled by `NpArray`
  (a shape together with the flattened data).
* code that can raise becomes `Except String`; the string is the kind of
  exception ("KeyError", "AttributeError", ...) or the exception message.
* the mutation of the dictionaries in `simplify_mcmc_results` becomes
  explicit state passing of the pair (params, out).
-/

/-! ## Python dict operations -/

/-- Python `d.get(k)` / `d[k]` lookup on an insertion-ordered dict, modelled as
the first matching key of an association list. -/
def dictLookup {β : Type _} : List (String × β) → String → Option β
  | [], _ => none
  | (k, v) :: rest, key => if k = key then some v else dictLookup rest key

/-- Python `d[k] = v`: replace the value of an existing key in place, otherwise
append the new key at the end (insertion order). -/
def dictSet {β : Type _} : List (String × β) → String → β → List (String × β)
  | [], key, v => [(key, v)]
  | (k, w) :: rest, key, v =>
      if k = key then (key, v) :: rest else (k, w) :: dictSet rest key v

/-- Python `d[k]` where a missing key raises `KeyError`. -/
def dictGetE {β : Type _} (d : List (String × β)) (key : String) : Except String β :=
  match dictLookup d key with
  | some v => Except.ok v
  | none => Except.error "KeyError"

/-- Python `k in d`. -/
def dictContainsKey {β : Type _} (d : List (String × β)) (key : String) : Bool :=
  (d.map Prod.fst).contains key

theorem dictLookup_dictSet_self {β : Type _} (d : List (String × β)) (k : String) (v : β) :
    dictLookup (dictSet d k v) k = some v := by
  induction d with
  | nil => simp [dictSet, dictLookup]
  | cons hd tl ih =>
      obtain ⟨k1, v1⟩ := hd
      by_cases h : k1 = k
      · simp [dictSet, h, dictLookup]
      · simp [dictSet, h, dictLookup, ih]

theorem dictLookup_dictSet_ne {β : Type _} (d : List (String × β)) (k k2 : String) (v : β)
    (h : k2 ≠ k) : dictLookup (dictSet d k v) k2 = dictLookup d k2 := by
  have h2 : ¬k = k2 := fun hh => h hh.symm
  induction d with
  | nil => simp [dictSet, dictLookup, h2]
  | cons hd tl ih =>
      obtain ⟨k1, v1⟩ := hd
      by_cases h1 : k1 = k
      · subst h1
        simp [dictSet, dictLookup, h2]
      · simp [dictSet, h1, dictLookup, ih]

theorem dictContainsKey_eq_isSome {β : Type _} (d : List (String × β)) (k : String) :
    dictContainsKey d k = (dictLookup d k).isSome := by
  induction d with
  | nil => simp [dictContainsKey, dictLookup]
  | cons hd tl ih =>
      obtain ⟨k1, v1⟩ := hd
      by_cases h : k1 = k
      · simp [dictContainsKey, dictLookup, h]
      · have h2 : ¬k = k1 := fun hh => h hh.symm
        have h3 : (k == k1) = false := beq_eq_false_iff_ne.mpr h2
        simpa [dictContainsKey, dictLookup, h, h3] using ih

/-! ## The column-name decoder (`CmdStanPyBackend.stan_to_dict_numpy`)

Source, `python/prophet/models.py` lines 195-226:

```
@staticmethod
def stan_to_dict_numpy(column_names: Tuple[str, ...], data: np.ndarray):
    output = OrderedDict()
    prev = None
    start = 0
    end = 0
    two_dims = len(data.shape) > 1
    for cname in column_names:
        parsed = cname.split(".") if "." in cname else cname.split("[")
        curr = parsed[0]
        if prev is None:
            prev = curr
        if curr != prev:
            if prev in output:
                raise RuntimeError("Found repeated column name")
            if two_dims:
                output[prev] = np.array(data[:, start:end])
            else:
                output[prev] = np.array(data[start:end])
            prev = curr
            start = end
        end += 1
    if prev in output:
        raise RuntimeError("Found repeated column name")
    if two_dims:
        output[prev] = np.array(data[:, start:end])
    else:
        output[prev] = np.array(data[start:end])
    return output
```
-/

/-- The numeric buffer passed to the decoder: a 1-D or a 2-D numpy array
(2-D is a list of rows). -/
inductive StanData (α : Type) where
  | one (xs : List α)
  | two (rows : List (List α))
deriving DecidableEq

/-- Python `data[start:end]` (1-D) / `data[:, start:end]` (2-D): slicing clamps
out-of-range bounds exactly like `drop`/`take` on lists do. -/
def sliceData {α : Type} : StanData α → Nat → Nat → StanData α
  | .one xs, s, e => .one ((xs.drop s).take (e - s))
  | .two rows, s, e => .two (rows.map fun r => (r.drop s).take (e - s))

/-- Size of the buffer along the axis the decoder slices: the sole axis of a
1-D buffer (axis 0), the trailing axis of a 2-D buffer (axis 1, so every row
must have that many entries). -/
def sizeAlongSliced {α : Type} : StanData α → Nat → Prop
  | .one xs, n => xs.length = n
  | .two rows, n => ∀ r ∈ rows, r.length = n

instance {α : Type} (d : StanData α) (n : Nat) : Decidable (sizeAlongSliced d n) := by
  cases d <;> unfold sizeAlongSliced <;> infer_instance

/-- Python `(cname.split(".") if "." in cname else cname.split("["))[0]`:
the first component of a single-character-separator split is the longest
prefix of the string that avoids the separator. -/
def baseName (cname : String) : String :=
  if cname.data.contains (Char.ofNat 46) then
    String.mk (cname.data.takeWhile fun c => c ≠ Char.ofNat 46)
  else
    String.mk (cname.data.takeWhile fun c => c ≠ Char.ofNat 91)

example : baseName "delta.1" = "delta" := by decide
example : baseName "beta[2]" = "beta" := by decide
example : baseName "k" = "k" := by decide
example : baseName "" = "" := by decide

/-- The `for cname in column_names` loop of `stan_to_dict_numpy`, as explicit
recursion.  The state is `(prev, start, stop, output)` where `stop` is the
Python variable `end`; `slice s e` stands for `np.array(data[s:e])` resp.
`np.array(data[:, s:e])` (the branch on `two_dims` is performed once by
`sliceData`).  A raised `RuntimeError` becomes `Except.error`. -/
def stanToDictLoop {σ : Type} (slice : Nat → Nat → σ) :
    List String → Option String → Nat → Nat → List (Option String × σ) →
    Except String (List (Option String × σ))
  | [], prev, start, stop, output =>
      if (output.map Prod.fst).contains prev then
        Except.error "Found repeated column name"
      else
        Except.ok (output ++ [(prev, slice start stop)])
  | cname :: rest, prev, start, stop, output =>
      let curr := baseName cname
      let prev2 := if prev = none then some curr else prev
      if some curr ≠ prev2 then
        if (output.map Prod.fst).contains prev2 then
          Except.error "Found repeated column name"
        else
          stanToDictLoop slice rest (some curr) stop (stop + 1)
            (output ++ [(prev2, slice start stop)])
      else
        stanToDictLoop slice rest prev2 start (stop + 1) output

/-- `CmdStanPyBackend.stan_to_dict_numpy`.  The returned `OrderedDict` is an
association list in insertion order; its keys are `Option String` because the
Python variable `prev` is initialized to `None` and is inserted as a key
verbatim when the column-name sequence is empty. -/
def stan_to_dict_numpy {α : Type} (column_names : List String) (data : StanData α) :
    Except String (List (Option String × StanData α)) :=
  stanToDictLoop (sliceData data) column_names none 0 0 []

example :
    stan_to_dict_numpy ["k", "delta.1", "delta.2"] (StanData.one [10, 20, 30]) =
      Except.ok [(some "k", StanData.one [10]), (some "delta", StanData.one [20, 30])] := by
  rfl

example :
    stan_to_dict_numpy ["a.1", "b", "a.2"] (StanData.one [1, 2, 3]) =
      Except.error "Found repeated column name" := by
  rfl

example :
    stan_to_dict_numpy ([] : List String) (StanData.one ([] : List Nat)) =
      Except.ok [(none, StanData.one [])] := by
  rfl

/-! ## Runs of equal base names (specification-side bookkeeping)

`runsAux bs cur s e` lists, as `(name, start, stop)` triples, the maximal runs
of equal adjacent names in `cur :: bs` when the run of `cur` is known to have
started at index `s` and `e` names have been consumed so far.  `runsOf` applies
it to a whole list, and `runNames`/`runNamesTop` are the corresponding run
names (the input with adjacent duplicates collapsed). -/

def runsAux : List String → String → Nat → Nat → List (String × Nat × Nat)
  | [], cur, s, e => [(cur, s, e)]
  | b :: rest, cur, s, e =>
      if b = cur then runsAux rest cur s (e + 1)
      else (cur, s, e) :: runsAux rest b e (e + 1)

def runsOf : List String → List (String × Nat × Nat)
  | [] => []
  | b :: rest => runsAux rest b 0 1

def runNames : List String → String → List String
  | [], cur => [cur]
  | b :: rest, cur => if b = cur then runNames rest cur else cur :: runNames rest b

def runNamesTop : List String → List String
  | [] => []
  | b :: rest => runNames rest b

example : runsOf ["k", "delta", "delta"] = [("k", 0, 1), ("delta", 1, 3)] := by decide
example : runNamesTop ["a", "b", "a"] = ["a", "b", "a"] := by decide

theorem runsAux_map_fst (bs : List String) :
    ∀ cur s e, (runsAux bs cur s e).map Prod.fst = runNames bs cur := by
  induction bs with
  | nil => intro cur s e; simp [runsAux, runNames]
  | cons b rest ih =>
      intro cur s e
      by_cases h : b = cur
      · simp [runsAux, runNames, h, ih]
      · simp [runsAux, runNames, h, ih]

theorem listContains_iff {γ : Type _} [BEq γ] [LawfulBEq γ] (l : List γ) (a : γ) :
    l.contains a = true ↔ a ∈ l :=
  List.elem_iff

theorem nodup_map_some_iff (l : List String) : (l.map some).Nodup ↔ l.Nodup := by
  constructor
  · exact fun h => h.of_map some
  · exact fun h => h.map (Option.some_injective _)

/-- Complete characterization of the decoder loop from a state whose current
run name is `cur` and whose already-emitted keys are free of duplicates: the
loop succeeds exactly when the emitted keys plus the names of the remaining
runs are free of duplicates, in which case it appends one entry per remaining
run, each holding the slice of that run's column range; otherwise it raises
`RuntimeError("Found repeated column name")`. -/
theorem stanToDictLoop_char {σ : Type} (slice : Nat → Nat → σ) (cnames : List String) :
    ∀ (cur : String) (s e : Nat) (output : List (Option String × σ)),
      (output.map Prod.fst).Nodup →
      stanToDictLoop slice cnames (some cur) s e output =
        if ((output.map Prod.fst) ++ (runNames (cnames.map baseName) cur).map some).Nodup then
          Except.ok (output ++ (runsAux (cnames.map baseName) cur s e).map
            (fun r => (some r.1, slice r.2.1 r.2.2)))
        else Except.error "Found repeated column name" := by
  induction cnames with
  | nil =>
      intro cur s e output hnd
      have hcond : ((output.map Prod.fst) ++ (runNames ([].map baseName) cur).map some).Nodup ↔
          some cur ∉ output.map Prod.fst := by
        constructor
        · intro h hmem
          rw [List.nodup_append] at h
          exact h.2.2 hmem (by simp [runNames])
        · intro hmem
          rw [List.nodup_append]
          refine ⟨hnd, by simp [runNames], ?_⟩
          intro a ha hb2
          have ha2 : a = some cur := by simpa [runNames] using hb2
          exact hmem (ha2 ▸ ha)
      by_cases hmem : some cur ∈ output.map Prod.fst
      · rw [if_neg (fun h => (hcond.mp h) hmem)]
        simp [stanToDictLoop, hmem]
      · rw [if_pos (hcond.mpr hmem)]
        simp [stanToDictLoop, hmem, runNames, runsAux]
  | cons cname rest ih =>
      intro cur s e output hnd
      by_cases hb : baseName cname = cur
      · have h1 : stanToDictLoop slice (cname :: rest) (some cur) s e output =
            stanToDictLoop slice rest (some cur) s (e + 1) output := by
          simp [stanToDictLoop, hb]
        rw [h1, ih cur s (e + 1) output hnd]
        simp [runNames, runsAux, hb]
      · have hcond : ((output.map Prod.fst) ++
            (runNames ((cname :: rest).map baseName) cur).map some).Nodup →
            some cur ∉ output.map Prod.fst := by
          intro h hmem2
          rw [List.nodup_append] at h
          exact h.2.2 hmem2 (by simp [runNames, hb])
        by_cases hmem : some cur ∈ output.map Prod.fst
        · rw [if_neg (fun h => hcond h hmem)]
          simp [stanToDictLoop, hb, hmem]
        · have hnd2 : ((output ++ [(some cur, slice s e)]).map Prod.fst).Nodup := by
            rw [List.map_append, List.nodup_append]
            refine ⟨hnd, by simp, ?_⟩
            intro a ha hb2
            have ha2 : a = some cur := by simpa using hb2
            exact hmem (ha2 ▸ ha)
          have h1 : stanToDictLoop slice (cname :: rest) (some cur) s e output =
              stanToDictLoop slice rest (some (baseName cname)) e (e + 1)
                (output ++ [(some cur, slice s e)]) := by
            simp [stanToDictLoop, hb, hmem]
          rw [h1, ih (baseName cname) e (e + 1) (output ++ [(some cur, slice s e)]) hnd2]
          have hl : (output ++ [(some cur, slice s e)]).map Prod.fst ++
              (runNames (rest.map baseName) (baseName cname)).map some =
              (output.map Prod.fst) ++
                (runNames ((cname :: rest).map baseName) cur).map some := by
            simp [runNames, hb]
          have hp : (output ++ [(some cur, slice s e)]) ++
              (runsAux (rest.map baseName) (baseName cname) e (e + 1)).map
                (fun r => (some r.1, slice r.2.1 r.2.2)) =
              output ++ (runsAux ((cname :: rest).map baseName) cur s e).map
                (fun r => (some r.1, slice r.2.1 r.2.2)) := by
            simp [runsAux, hb]
          rw [hl, hp]

theorem self_mem_runNames (bs : List String) : ∀ cur, cur ∈ runNames bs cur := by
  induction bs with
  | nil => intro cur; simp [runNames]
  | cons b rest ih =>
      intro cur
      by_cases h : b = cur
      · simpa [runNames, h] using ih cur
      · simp [runNames, h]

theorem mem_runNames_of_mem (bs : List String) :
    ∀ x cur, x ∈ bs → x ∈ runNames bs cur := by
  induction bs with
  | nil => intro x cur h; simp at h
  | cons b rest ih =>
      intro x cur hx
      rcases List.mem_cons.mp hx with h | h
      · subst h
        by_cases hb : x = cur
        · subst hb; exact self_mem_runNames _ _
        · simp only [runNames, hb, if_false]
          exact List.mem_cons_of_mem _ (self_mem_runNames _ _)
      · by_cases hb : b = cur
        · simpa [runNames, hb] using ih x cur h
        · simp only [runNames, hb, if_false]
          exact List.mem_cons_of_mem _ (ih x b h)

theorem mem_of_mem_runNames (bs : List String) :
    ∀ cur x, x ∈ runNames bs cur → x = cur ∨ x ∈ bs := by
  induction bs with
  | nil => intro cur x h; simp [runNames] at h; exact Or.inl h
  | cons b rest ih =>
      intro cur x h
      by_cases hb : b = cur
      · subst hb
        rcases ih b x (by simpa [runNames] using h) with h1 | h1
        · exact Or.inr (h1 ▸ List.mem_cons_self _ _)
        · exact Or.inr (List.mem_cons_of_mem _ h1)
      · simp only [runNames, hb, if_false, List.mem_cons] at h
        rcases h with h1 | h1
        · exact Or.inl h1
        · rcases ih b x h1 with h2 | h2
          · exact Or.inr (h2 ▸ List.mem_cons_self _ _)
          · exact Or.inr (List.mem_cons_of_mem _ h2)

theorem mem_runNamesTop_iff (bs : List String) (x : String) :
    x ∈ runNamesTop bs ↔ x ∈ bs := by
  cases bs with
  | nil => simp [runNamesTop]
  | cons b rest =>
      constructor
      · intro h
        rcases mem_of_mem_runNames rest b x h with h1 | h1
        · exact h1 ▸ List.mem_cons_self _ _
        · exact List.mem_cons_of_mem _ h1
      · intro h
        rcases List.mem_cons.mp h with h1 | h1
        · exact h1 ▸ self_mem_runNames _ _
        · exact mem_runNames_of_mem _ _ _ h1

theorem runsOf_map_fst (bs : List String) :
    (runsOf bs).map Prod.fst = runNamesTop bs := by
  cases bs with
  | nil => simp [runsOf, runNamesTop]
  | cons b rest => simp [runsOf, runNamesTop, runsAux_map_fst]

/-- Each run `(n, s, e)` that `runsAux` emits describes a nonempty block of
columns all of whose base names are `n`: relative to the original base-name
list `orig`, positions `s` up to `e` (exclusive) all carry name `n`, and `e`
never exceeds the length of `orig`. -/
theorem runsAux_block (tail : List String) :
    ∀ (cur : String) (s e : Nat) (orig : List String),
      orig.drop s = List.replicate (e - s) cur ++ tail → s < e →
      ∀ r ∈ runsAux tail cur s e,
        (orig.drop r.2.1).take (r.2.2 - r.2.1) = List.replicate (r.2.2 - r.2.1) r.1 ∧
          r.2.1 < r.2.2 ∧ r.2.2 ≤ orig.length := by
  induction tail with
  | nil =>
      intro cur s e orig horig hse r hr
      simp only [runsAux, List.mem_singleton] at hr
      subst hr
      simp only [List.append_nil] at horig
      have hlen : orig.length - s = e - s := by
        have := congrArg List.length horig
        simpa using this
      refine ⟨?_, hse, ?_⟩
      · show (orig.drop s).take (e - s) = List.replicate (e - s) cur
        rw [horig, List.take_replicate]
        simp
      · show e ≤ orig.length
        omega
  | cons b rest ih =>
      intro cur s e orig horig hse r hr
      by_cases hb : b = cur
      · subst hb
        have horig2 : orig.drop s = List.replicate (e + 1 - s) b ++ rest := by
          have he : e + 1 - s = (e - s) + 1 := by omega
          rw [he, List.replicate_succ', horig]
          simp
        have hr2 : r ∈ runsAux rest b s (e + 1) := by
          simpa [runsAux] using hr
        exact ih b s (e + 1) orig horig2 (by omega) r hr2
      · have hlen : orig.length - s = e - s + (rest.length + 1) := by
          have := congrArg List.length horig
          simpa using this
        simp only [runsAux, hb, if_false, List.mem_cons] at hr
        rcases hr with hr | hr
        · subst hr
          refine ⟨?_, hse, ?_⟩
          · show (orig.drop s).take (e - s) = List.replicate (e - s) cur
            rw [horig, List.take_left' (by simp : (List.replicate (e - s) cur).length = e - s)]
          · show e ≤ orig.length
            omega
        · have hdropE : orig.drop e = b :: rest := by
            have h1 : orig.drop e = (orig.drop s).drop (e - s) := by
              rw [List.drop_drop]
              congr 1
              omega
            rw [h1, horig,
              List.drop_left' (by simp : (List.replicate (e - s) cur).length = e - s)]
          have horig3 : orig.drop e = List.replicate (e + 1 - e) b ++ rest := by
            simpa [List.replicate_one] using hdropE
          exact ih b e (e + 1) orig horig3 (by omega) r hr

/-- A base name that occurs before a repetition pattern `x ... y ... x`
(with `y ≠ x` strictly between two occurrences of `x`) forces a duplicate
among the run names: the decomposition starting at the first listed `x`. -/
theorem runNames_dup_of_pattern (M : List String) :
    ∀ (R : List String) (x y : String), y ∈ M → y ≠ x →
      ¬(runNames (M ++ x :: R) x).Nodup := by
  induction M with
  | nil => intro R x y hy _; simp at hy
  | cons m M2 ih =>
      intro R x y hy hyx hnodup
      have hxmem : ∀ z, x ∈ runNames (M2 ++ x :: R) z :=
        fun z => mem_runNames_of_mem _ _ _ (by simp)
      rcases List.mem_cons.mp hy with h | h
      · subst h
        have hmx : ¬y = x := hyx
        rw [List.cons_append] at hnodup
        simp only [runNames, hmx, if_false] at hnodup
        exact (List.nodup_cons.mp hnodup).1 (hxmem y)
      · by_cases hmx : m = x
        · rw [List.cons_append] at hnodup
          simp only [runNames, hmx, if_pos] at hnodup
          exact ih R x y h hyx (by simpa [hmx] using hnodup)
        · rw [List.cons_append] at hnodup
          simp only [runNames, hmx, if_false] at hnodup
          exact (List.nodup_cons.mp hnodup).1 (hxmem m)

theorem runNames_dup_of_pattern_cons (A : List String) :
    ∀ (cur : String) (M R : List String) (x y : String), y ∈ M → y ≠ x →
      ¬(runNames (A ++ x :: (M ++ x :: R)) cur).Nodup := by
  induction A with
  | nil =>
      intro cur M R x y hy hyx hnodup
      simp only [List.nil_append] at hnodup
      by_cases hxc : x = cur
      · subst hxc
        simp only [runNames, if_pos] at hnodup
        exact runNames_dup_of_pattern M R x y hy hyx hnodup
      · simp only [runNames, hxc, if_false] at hnodup
        exact runNames_dup_of_pattern M R x y hy hyx (List.nodup_cons.mp hnodup).2
  | cons a A2 ih =>
      intro cur M R x y hy hyx hnodup
      rw [List.cons_append] at hnodup
      by_cases hac : a = cur
      · simp only [runNames, hac, if_pos] at hnodup
        exact ih cur M R x y hy hyx (by simpa [hac] using hnodup)
      · simp only [runNames, hac, if_false] at hnodup
        exact ih a M R x y hy hyx (List.nodup_cons.mp hnodup).2

/-- The pattern of claim C2, extracted from index form: if some base name
reappears at index `k` after occurring at index `i` with a different base name
at index `j` strictly in between, the list decomposes as
`A ++ x :: (M ++ x :: R)` with the offending name inside `M`. -/
theorem exists_pattern_decomp {γ : Type _} (bs : List γ) (i j k : Nat)
    (hk : k < bs.length) (hij : i < j) (hjk : j < k)
    (hik : bs.get ⟨i, by omega⟩ = bs.get ⟨k, hk⟩)
    (hjne : bs.get ⟨j, by omega⟩ ≠ bs.get ⟨k, hk⟩) :
    ∃ A M R, bs = A ++ bs.get ⟨k, hk⟩ :: (M ++ bs.get ⟨k, hk⟩ :: R) ∧
      ∃ y ∈ M, y ≠ bs.get ⟨k, hk⟩ := by
  have hi : i < bs.length := by omega
  have hj : j < bs.length := by omega
  refine ⟨bs.take i, (bs.take k).drop (i + 1), bs.drop (k + 1), ?_, bs.get ⟨j, hj⟩, ?_, hjne⟩
  · have h1 : bs = bs.take i ++ bs.drop i := (List.take_append_drop i bs).symm
    have h2 : bs.drop i = bs.get ⟨i, hi⟩ :: bs.drop (i + 1) := List.drop_eq_getElem_cons hi
    have h3 : bs.drop (i + 1) = (bs.take k).drop (i + 1) ++ bs.drop k := by
      conv =>
        lhs
        rw [← List.take_append_drop k bs]
      rw [List.drop_append_eq_append_drop]
      have : i + 1 - (bs.take k).length = 0 := by
        simp only [List.length_take]
        omega
      rw [this]
      simp
    have h4 : bs.drop k = bs.get ⟨k, hk⟩ :: bs.drop (k + 1) := List.drop_eq_getElem_cons hk
    rw [hik] at h2
    conv =>
      lhs
      rw [h1, h2, h3, h4]
  · have hlen : ((bs.take k).drop (i + 1)).length = k - (i + 1) := by
      simp only [List.length_drop, List.length_take]
      omega
    have hjlt : j - (i + 1) < ((bs.take k).drop (i + 1)).length := by omega
    have hget : ((bs.take k).drop (i + 1)).get ⟨j - (i + 1), hjlt⟩ = bs.get ⟨j, hj⟩ := by
      simp only [List.get_eq_getElem, List.getElem_drop, List.getElem_take]
      congr 1
      omega
    rw [← hget]
    exact List.get_mem _ _ _

theorem sizeAlongSliced_sliceData {α : Type} (data : StanData α) (L s e : Nat)
    (hw : sizeAlongSliced data L) (he : e ≤ L) :
    sizeAlongSliced (sliceData data s e) (e - s) := by
  cases data with
  | one xs =>
      show ((xs.drop s).take (e - s)).length = e - s
      have hxs : xs.length = L := hw
      simp only [List.length_take, List.length_drop, hxs]
      omega
  | two rows =>
      intro r hr
      obtain ⟨r0, hr0, hr0eq⟩ := List.mem_map.mp hr
      subst hr0eq
      have hrow : r0.length = L := hw r0 hr0
      simp only [List.length_take, List.length_drop, hrow]
      omega

/-- Evaluation of `stan_to_dict_numpy` on a nonempty column list: the first
loop iteration only initializes `prev` to the first base name. -/
theorem stan_to_dict_numpy_cons {α : Type} (c : String) (rest : List String)
    (data : StanData α) :
    stan_to_dict_numpy (c :: rest) data =
      stanToDictLoop (sliceData data) rest (some (baseName c)) 0 1 [] := by
  simp [stan_to_dict_numpy, stanToDictLoop]

/-- C1 (amended with nonemptiness): for every nonempty well-formed column-name
sequence whose base names (prefix before the first delimiter, dot preferred)
form contiguous runs, and every buffer whose sliced axis has one entry per
column, `stan_to_dict_numpy` succeeds; its keys in insertion order are exactly
the distinct base names in first-occurrence order (`runNamesTop`, adjacent
dedup, which under the contiguity hypothesis lists each distinct base name
once, ordered by first occurrence, and ranges over exactly the base names of
the input); each value is the slice of that base name's contiguous run of
columns `[start, stop)`, those positions all carry that base name, and the
size along the sliced axis equals the run length. -/
theorem stan_to_dict_numpy_contiguous_spec {α : Type} (cnames : List String)
    (data : StanData α) (hne : cnames ≠ [])
    (hcontig : (runNamesTop (cnames.map baseName)).Nodup)
    (hwidth : sizeAlongSliced data cnames.length) :
    stan_to_dict_numpy cnames data =
      Except.ok ((runsOf (cnames.map baseName)).map
        (fun r => (some r.1, sliceData data r.2.1 r.2.2)))
    ∧ (runsOf (cnames.map baseName)).map Prod.fst = runNamesTop (cnames.map baseName)
    ∧ (∀ x, x ∈ runNamesTop (cnames.map baseName) ↔ x ∈ cnames.map baseName)
    ∧ ∀ r ∈ runsOf (cnames.map baseName),
        ((cnames.map baseName).drop r.2.1).take (r.2.2 - r.2.1) =
            List.replicate (r.2.2 - r.2.1) r.1
        ∧ 0 < r.2.2 - r.2.1 ∧ r.2.2 ≤ cnames.length
        ∧ sizeAlongSliced (sliceData data r.2.1 r.2.2) (r.2.2 - r.2.1) := by
  cases cnames with
  | nil => exact absurd rfl hne
  | cons c rest =>
      have hrn : runNamesTop ((c :: rest).map baseName) =
          runNames (rest.map baseName) (baseName c) := by
        simp only [List.map_cons, runNamesTop]
      have hro : runsOf ((c :: rest).map baseName) =
          runsAux (rest.map baseName) (baseName c) 0 1 := by
        simp only [List.map_cons, runsOf]
      refine ⟨?_, runsOf_map_fst _, fun x => mem_runNamesTop_iff _ x, ?_⟩
      · rw [stan_to_dict_numpy_cons,
          stanToDictLoop_char (sliceData data) rest (baseName c) 0 1 [] (by simp)]
        have hcnd : ((([] : List (Option String × StanData α)).map Prod.fst) ++
            (runNames (rest.map baseName) (baseName c)).map some).Nodup := by
          simp only [List.map_nil, List.nil_append]
          exact (nodup_map_some_iff _).mpr (by rw [← hrn]; exact hcontig)
        rw [if_pos hcnd, hro]
        simp
      · intro r hr
        rw [hro] at hr
        have horig : ((c :: rest).map baseName).drop 0 =
            List.replicate (1 - 0) (baseName c) ++ rest.map baseName := by
          simp [List.replicate_one]
        have hblock := runsAux_block (rest.map baseName) (baseName c) 0 1
          ((c :: rest).map baseName) horig (by omega) r hr
        have hlen : ((c :: rest).map baseName).length = (c :: rest).length := by
          simp
        refine ⟨hblock.1, by omega, ?_, ?_⟩
        · have := hblock.2.2
          omega
        · refine sizeAlongSliced_sliceData data (c :: rest).length r.2.1 r.2.2 hwidth ?_
          have := hblock.2.2
          omega

/-- Witness for C1: a concrete three-column decode with runs `k` and `delta`,
obtained by applying the contiguous-run theorem and evaluating. -/
theorem stan_to_dict_numpy_contiguous_spec_witness :
    stan_to_dict_numpy ["k", "delta.1", "delta.2"] (StanData.one [(10 : Nat), 20, 30]) =
      Except.ok [(some "k", StanData.one [10]), (some "delta", StanData.one [20, 30])] := by
  have h := (stan_to_dict_numpy_contiguous_spec ["k", "delta.1", "delta.2"]
    (StanData.one [(10 : Nat), 20, 30]) (by decide) (by decide) (by decide)).1
  exact h.trans rfl

/-- Counterexample to C1 as frozen: the empty column-name sequence is
(vacuously) well formed with contiguous runs and a matching empty buffer, but
the output mapping's keys are `[none]`, not the empty sequence of distinct
base names. -/
theorem stan_to_dict_numpy_contiguous_spec_cex :
    stan_to_dict_numpy ([] : List String) (StanData.one ([] : List Nat)) =
      Except.ok [(none, StanData.one [])]
    ∧ [((none : Option String), StanData.one ([] : List Nat))].map Prod.fst ≠
        (runNamesTop (([] : List String).map baseName)).map some :=
  ⟨rfl, by decide⟩

/-- C2: if any base name reappears at a later column after a different base
name occurred strictly in between, the decoder raises
`RuntimeError("Found repeated column name")` instead of returning a mapping. -/
theorem stan_to_dict_numpy_repeat_error {α : Type} (cnames : List String)
    (data : StanData α) (i j k : Nat)
    (hk : k < (cnames.map baseName).length) (hij : i < j) (hjk : j < k)
    (hik : (cnames.map baseName).get ⟨i, by omega⟩ = (cnames.map baseName).get ⟨k, hk⟩)
    (hjne : (cnames.map baseName).get ⟨j, by omega⟩ ≠ (cnames.map baseName).get ⟨k, hk⟩) :
    stan_to_dict_numpy cnames data = Except.error "Found repeated column name" := by
  obtain ⟨A, M, R, hdecomp, y, hy, hyx⟩ :=
    exists_pattern_decomp (cnames.map baseName) i j k hk hij hjk hik hjne
  have hnotnodup : ¬(runNamesTop (cnames.map baseName)).Nodup := by
    rw [hdecomp]
    cases A with
    | nil =>
        simp only [List.nil_append, runNamesTop]
        exact runNames_dup_of_pattern M R _ y hy hyx
    | cons a A2 =>
        simp only [List.cons_append, runNamesTop]
        exact runNames_dup_of_pattern_cons A2 a M R _ y hy hyx
  cases cnames with
  | nil => simp at hk
  | cons c rest =>
      rw [stan_to_dict_numpy_cons,
        stanToDictLoop_char (sliceData data) rest (baseName c) 0 1 [] (by simp)]
      have hcnd : ¬((([] : List (Option String × StanData α)).map Prod.fst) ++
          (runNames (rest.map baseName) (baseName c)).map some).Nodup := by
        simp only [List.map_nil, List.nil_append]
        intro hnd
        exact hnotnodup (by
          simpa only [List.map_cons, runNamesTop] using (nodup_map_some_iff _).mp hnd)
      rw [if_neg hcnd]

/-- Witness for C2: base names `a, b, a` (from columns `a.1, b, a.2`) raise the
repeated-column error. -/
theorem stan_to_dict_numpy_repeat_error_witness :
    stan_to_dict_numpy ["a.1", "b", "a.2"] (StanData.one [(1 : Nat), 2, 3]) =
      Except.error "Found repeated column name" :=
  stan_to_dict_numpy_repeat_error ["a.1", "b", "a.2"] (StanData.one [(1 : Nat), 2, 3])
    0 1 2 (by decide) (by decide) (by decide) (by decide) (by decide)

/-- C10: on an empty column-name sequence the decoder does not return an empty
mapping: the final run is closed out unconditionally, producing exactly one
entry whose key is the `None` sentinel (`prev` was never set to a name) and
whose value is the empty slice `data[0:0]` of the buffer. -/
theorem stan_to_dict_numpy_empty {α : Type} (data : StanData α) :
    stan_to_dict_numpy ([] : List String) data =
      Except.ok [(none, sliceData data 0 0)]
    ∧ sizeAlongSliced (sliceData data 0 0) 0 := by
  constructor
  · rfl
  · cases data with
    | one xs => show ((xs.drop 0).take 0).length = 0; simp
    | two rows =>
        intro r hr
        obtain ⟨r0, _, hr0eq⟩ := List.mem_map.mp hr
        subst hr0eq
        simp

/-! ## The posterior simplifier (`IStanBackend.simplify_mcmc_results`)

Source, `python/prophet/models.py` lines 42-52:

```
@staticmethod
def simplify_mcmc_results(params: Dict[str, np.ndarray]) -> Dict[str, np.ndarray]:
    """Simplifies dimensions of results from MCMC sampling with multiple chains."""
    out = {k: v for k, v in params.items()}
    for par in out:
        s = out[par].shape
        if s[1] == 1:
            out[par] = out[par].reshape((s[0],))
        if par in ["delta", "beta"] and len(s) < 2:
            out[par] = out[par].reshape((-1, 1))
    return out
```

The dict mutation is embedded as explicit state passing over the pair
`(params, out)`; a raised exception carries the state at raise time so the
frame property can be stated for the error path too.
-/

/-- A numpy array of any rank: its shape and its row-major flattened data. -/
structure NpArray (α : Type) where
  shape : List Nat
  data : List α
deriving DecidableEq

/-- Python tuple indexing `s[i]`: raises `IndexError` out of range. -/
def tupleGet (s : List Nat) (i : Nat) : Except String Nat :=
  match s[i]? with
  | some v => Except.ok v
  | none => Except.error "tuple index out of range"

/-- numpy `v.reshape((n,))`: succeeds exactly when the total element count is
`n`; the data is unchanged. -/
def npReshapeVec {α : Type} (n : Nat) (v : NpArray α) : Except String (NpArray α) :=
  if v.data.length = n then Except.ok ⟨[n], v.data⟩
  else Except.error "cannot reshape array"

/-- numpy `v.reshape((-1, 1))`: always succeeds, inferring the leading
dimension as the element count. -/
def npReshapeCol {α : Type} (v : NpArray α) : NpArray α :=
  ⟨[v.data.length, 1], v.data⟩

/-- The body of the `for par in out` loop of `simplify_mcmc_results` for one
parameter: note that `s` is the shape read BEFORE the first reshape, so
`s[1]` raises `IndexError` on arrays of rank below 2, and `len(s) < 2` is
evaluated on the pre-squeeze shape. -/
def simplifyOne {α : Type} (par : String) (v : NpArray α) : Except String (NpArray α) := do
  let s := v.shape
  let s1 ← tupleGet s 1
  let v1 ←
    if s1 = 1 then do
      let s0 ← tupleGet s 0
      npReshapeVec s0 v
    else
      pure v
  if (par = "delta" ∨ par = "beta") ∧ s.length < 2 then
    pure (npReshapeCol v1)
  else
    pure v1

/-- The `for par in out` loop of `simplify_mcmc_results`: iterates over the
keys of `out` (fixed at loop entry) while threading the state
`(params, out)`; all writes go through `dictSet` on the `out` component.  An
exception carries the state at raise time. -/
def simplifyLoop {α : Type} :
    List String → (List (String × NpArray α) × List (String × NpArray α)) →
    Except (String × List (String × NpArray α) × List (String × NpArray α))
      (List (String × NpArray α) × List (String × NpArray α))
  | [], st => Except.ok st
  | par :: rest, st =>
      match dictLookup st.2 par with
      | none => Except.error ("KeyError", st)
      | some v =>
          match simplifyOne par v with
          | Except.error e => Except.error (e, st)
          | Except.ok v2 => simplifyLoop rest (st.1, dictSet st.2 par v2)

/-- `IStanBackend.simplify_mcmc_results`.  The dict comprehension
`{k: v for k, v in params.items()}` builds the fresh dict `out`; the result
pairs the final state of `params` with the returned `out`. -/
def simplify_mcmc_results {α : Type} (params : List (String × NpArray α)) :
    Except (String × List (String × NpArray α) × List (String × NpArray α))
      (List (String × NpArray α) × List (String × NpArray α)) :=
  let out := params.map (fun kv => kv)
  simplifyLoop (out.map Prod.fst) (params, out)

/-- The final state of the `params` argument after a call, whether the call
returned normally or raised. -/
def stateAfter {ε ρ σ : Type _} : Except (ε × ρ × σ) (ρ × σ) → ρ
  | Except.ok st => st.1
  | Except.error e => e.2.1

theorem simplifyLoop_fst {α : Type} (pars : List String) :
    ∀ st : List (String × NpArray α) × List (String × NpArray α),
      stateAfter (simplifyLoop pars st) = st.1 := by
  induction pars with
  | nil => intro st; simp [simplifyLoop, stateAfter]
  | cons par rest ih =>
      intro st
      cases h : dictLookup st.2 par with
      | none => simp [simplifyLoop, h, stateAfter]
      | some v =>
          cases h2 : simplifyOne par v with
          | error e => simp [simplifyLoop, h, h2, stateAfter]
          | ok v2 =>
              have := ih (st.1, dictSet st.2 par v2)
              simpa [simplifyLoop, h, h2] using this

/-- C9: `simplify_mcmc_results` never mutates its argument: whether it returns
normally or raises, the `params` component of the final state is exactly the
input mapping (same keys, same arrays, same shapes); all reshaping happens in
the freshly built `out` dict. -/
theorem simplify_mcmc_results_frame {α : Type} (params : List (String × NpArray α)) :
    stateAfter (simplify_mcmc_results params) = params := by
  show stateAfter (simplifyLoop ((params.map (fun kv => kv)).map Prod.fst)
    (params, params.map (fun kv => kv))) = params
  rw [simplifyLoop_fst]

/-- C3 is violated by the code: `len(s) < 2` is checked on the PRE-squeeze
shape, so a `delta` sampled as `(3, 1)` is squeezed to the 1-D shape `(3,)`
and never reinstated to two axes; and a `delta` that is already a 1-D vector
raises `IndexError` at `s[1]` instead of being reshaped. -/
theorem simplify_mcmc_results_delta_bug :
    simplify_mcmc_results [("delta", (⟨[3, 1], [1, 2, 3]⟩ : NpArray Nat))] =
      Except.ok ([("delta", ⟨[3, 1], [1, 2, 3]⟩)], [("delta", ⟨[3], [1, 2, 3]⟩)])
    ∧ (⟨[3], [(1 : Nat), 2, 3]⟩ : NpArray Nat).shape.length < 2
    ∧ simplify_mcmc_results [("delta", (⟨[3], [1, 2, 3]⟩ : NpArray Nat))] =
        Except.error ("tuple index out of range",
          [("delta", ⟨[3], [1, 2, 3]⟩)], [("delta", ⟨[3], [1, 2, 3]⟩)]) :=
  ⟨rfl, by decide, rfl⟩

/-! ## The custom-init sanitizer (`IStanBackend.sanitize_custom_inits`)

Source, `python/prophet/models.py` lines 54-68:

```
@staticmethod
def sanitize_custom_inits(default_inits, custom_inits):
    """Validate that custom inits have the correct type and shape, otherwise use defaults."""
    sanitized = {}
    for param in ["k", "m", "sigma_obs"]:
        try:
            sanitized[param] = float(custom_inits.get(param))
        except Exception:
            sanitized[param] = default_inits[param]
    for param in ["delta", "beta"]:
        if default_inits[param].shape == custom_inits[param].shape:
            sanitized[param] = custom_inits[param]
        else:
            sanitized[param] = default_inits[param]
    return sanitized
```

Values of the init dicts are modelled by `PyVal` (numbers as rationals —
none of the sanitizer's behavior depends on float rounding; numeric strings
are outside the modelled value domain).
-/

/-- A Python value that can appear in an init dict. -/
inductive PyVal where
  | num (x : ℚ)
  | pynone
  | arr (a : NpArray ℚ)
  | pylist (l : List ℚ)
deriving DecidableEq

/-- Python `float(v)`: succeeds on numbers and on single-element numpy arrays,
raises `TypeError` on `None`, lists and larger arrays. -/
def pyFloat : PyVal → Except String ℚ
  | PyVal.num x => Except.ok x
  | PyVal.arr a => if a.data.length = 1 then Except.ok a.data.headI
                   else Except.error "TypeError"
  | _ => Except.error "TypeError"

/-- Python `v.shape`: raises `AttributeError` unless `v` is an array. -/
def pyShape : PyVal → Except String (List Nat)
  | PyVal.arr a => Except.ok a.shape
  | _ => Except.error "AttributeError"

/-- One iteration of the scalar loop of `sanitize_custom_inits`: the `try`
covers `float(custom_inits.get(param))` (absent keys yield `None`, so the
coercion fails and is caught); the handler's own `default_inits[param]` lookup
is NOT protected, so a missing default key raises `KeyError`. -/
def sanitizeScalar (default_inits custom_inits : List (String × PyVal))
    (param : String) : Except String PyVal :=
  match pyFloat ((dictLookup custom_inits param).getD PyVal.pynone) with
  | Except.ok x => Except.ok (PyVal.num x)
  | Except.error _ =>
      match dictLookup default_inits param with
      | some v => Except.ok v
      | none => Except.error "KeyError"

/-- One iteration of the vector loop of `sanitize_custom_inits`, in Python
evaluation order: `default_inits[param]`, its `.shape`, `custom_inits[param]`,
its `.shape`, then the comparison.  None of it is guarded by a `try`. -/
def sanitizeVector (default_inits custom_inits : List (String × PyVal))
    (param : String) : Except String PyVal := do
  let d ← dictGetE default_inits param
  let dShape ← pyShape d
  let c ← dictGetE custom_inits param
  let cShape ← pyShape c
  if dShape = cShape then pure c else pure d

/-- `IStanBackend.sanitize_custom_inits`: both loops unrolled over their fixed
parameter lists, building `sanitized` in insertion order. -/
def sanitize_custom_inits (default_inits custom_inits : List (String × PyVal)) :
    Except String (List (String × PyVal)) := do
  let kv ← sanitizeScalar default_inits custom_inits "k"
  let mv ← sanitizeScalar default_inits custom_inits "m"
  let sv ← sanitizeScalar default_inits custom_inits "sigma_obs"
  let dv ← sanitizeVector default_inits custom_inits "delta"
  let bv ← sanitizeVector default_inits custom_inits "beta"
  pure [("k", kv), ("m", mv), ("sigma_obs", sv), ("delta", dv), ("beta", bv)]

/-- C4 is violated by the code: the scalar loop indeed absorbs every coercion
failure into the default (first conjunct: a non-numeric `k` and absent `m`,
`sigma_obs` all fall back to the defaults), but the vector loop is unguarded,
so a custom-init dict without a `delta` key raises `KeyError` (second
conjunct) and a non-array `delta` raises `AttributeError` (third conjunct)
instead of being replaced by the default. -/
theorem sanitize_custom_inits_raises :
    sanitize_custom_inits
        [("k", PyVal.num 1), ("m", PyVal.num 2), ("sigma_obs", PyVal.num 3),
         ("delta", PyVal.arr ⟨[2], [0, 0]⟩), ("beta", PyVal.arr ⟨[1], [0]⟩)]
        [("k", PyVal.pynone), ("delta", PyVal.arr ⟨[2], [5, 6]⟩),
         ("beta", PyVal.arr ⟨[1], [7]⟩)] =
      Except.ok [("k", PyVal.num 1), ("m", PyVal.num 2), ("sigma_obs", PyVal.num 3),
        ("delta", PyVal.arr ⟨[2], [5, 6]⟩), ("beta", PyVal.arr ⟨[1], [7]⟩)]
    ∧ sanitize_custom_inits
         [("k", PyVal.num 1), ("m", PyVal.num 2), ("sigma_obs", PyVal.num 3),
         ("delta", PyVal.arr ⟨[2], [0, 0]⟩), ("beta", PyVal.arr ⟨[1], [0]⟩)]
        [("k", PyVal.num 4)] =
      Except.error "KeyError"
    ∧ sanitize_custom_inits
        [("k", PyVal.num 1), ("m", PyVal.num 2), ("sigma_obs", PyVal.num 3),
         ("delta", PyVal.arr ⟨[2], [0, 0]⟩), ("beta", PyVal.arr ⟨[1], [0]⟩)]
        [("delta", PyVal.pylist [5, 6]), ("beta", PyVal.arr ⟨[1], [7]⟩)] =
      Except.error "AttributeError" :=
  ⟨rfl, rfl, rfl⟩

/-- Python truthiness of an `Except` result: did the call return normally. -/
def exceptIsOk {ε σ : Type _} : Except ε σ → Bool
  | Except.ok _ => true
  | Except.error _ => false

/-- The entry a sanitized init dict binds for a parameter, `none` if the call
raised. -/
def getParam (r : Except String (List (String × PyVal))) (p : String) : Option PyVal :=
  match r with
  | Except.ok out => dictLookup out p
  | Except.error _ => none

theorem sanitizeScalar_isOk (di ci : List (String × PyVal)) (p : String)
    (h : (dictLookup di p).isSome) : ∃ v, sanitizeScalar di ci p = Except.ok v := by
  cases h1 : pyFloat ((dictLookup ci p).getD PyVal.pynone) with
  | ok x => exact ⟨PyVal.num x, by simp [sanitizeScalar, h1]⟩
  | error e =>
      cases hd : dictLookup di p with
      | none => rw [hd] at h; simp at h
      | some v => exact ⟨v, by simp [sanitizeScalar, h1, hd]⟩

/-- C5: for each vector parameter (`delta`, `beta`) bound to arrays in both
dicts (and with the three scalar defaults present so the scalar loop cannot
raise), `sanitize_custom_inits` returns normally, binds the caller's array
exactly when its shape equals the default's shape, and binds the default
array unchanged whenever the shapes differ. -/
theorem sanitize_custom_inits_vector_spec (di ci : List (String × PyVal))
    (dd cd db cb : NpArray ℚ)
    (hk : (dictLookup di "k").isSome) (hm : (dictLookup di "m").isSome)
    (hs : (dictLookup di "sigma_obs").isSome)
    (hdd : dictLookup di "delta" = some (PyVal.arr dd))
    (hcd : dictLookup ci "delta" = some (PyVal.arr cd))
    (hdb : dictLookup di "beta" = some (PyVal.arr db))
    (hcb : dictLookup ci "beta" = some (PyVal.arr cb)) :
    exceptIsOk (sanitize_custom_inits di ci) = true
    ∧ getParam (sanitize_custom_inits di ci) "delta" =
        some (if dd.shape = cd.shape then PyVal.arr cd else PyVal.arr dd)
    ∧ getParam (sanitize_custom_inits di ci) "beta" =
        some (if db.shape = cb.shape then PyVal.arr cb else PyVal.arr db) := by
  obtain ⟨kv, hkv⟩ := sanitizeScalar_isOk di ci "k" hk
  obtain ⟨mv, hmv⟩ := sanitizeScalar_isOk di ci "m" hm
  obtain ⟨sv, hsv⟩ := sanitizeScalar_isOk di ci "sigma_obs" hs
  have hdv : sanitizeVector di ci "delta" =
      Except.ok (if dd.shape = cd.shape then PyVal.arr cd else PyVal.arr dd) := by
    by_cases hsh : dd.shape = cd.shape <;>
      simp [sanitizeVector, dictGetE, hdd, hcd, pyShape, hsh, Except.bind, Except.pure,
        bind, pure]
  have hbv : sanitizeVector di ci "beta" =
      Except.ok (if db.shape = cb.shape then PyVal.arr cb else PyVal.arr db) := by
    by_cases hsh : db.shape = cb.shape <;>
      simp [sanitizeVector, dictGetE, hdb, hcb, pyShape, hsh, Except.bind, Except.pure,
        bind, pure]
  refine ⟨?_, ?_, ?_⟩ <;>
    simp [sanitize_custom_inits, hkv, hmv, hsv, hdv, hbv, exceptIsOk, getParam, dictLookup,
      Except.bind, Except.pure, bind, pure,
      show ¬("k" : String) = "delta" by decide,
      show ¬("m" : String) = "delta" by decide,
      show ¬("sigma_obs" : String) = "delta" by decide,
      show ¬("k" : String) = "beta" by decide,
      show ¬("m" : String) = "beta" by decide,
      show ¬("sigma_obs" : String) = "beta" by decide,
      show ¬("delta" : String) = "beta" by decide]

/-- Witness for C5: a shape-matching `delta` is passed through unmodified and
a shape-mismatched `beta` is replaced by the default, on concrete dicts. -/
theorem sanitize_custom_inits_vector_spec_witness :
    exceptIsOk (sanitize_custom_inits
        [("k", PyVal.num 1), ("m", PyVal.num 2), ("sigma_obs", PyVal.num 3),
         ("delta", PyVal.arr ⟨[2], [0, 0]⟩), ("beta", PyVal.arr ⟨[1], [0]⟩)]
        [("delta", PyVal.arr ⟨[2], [5, 6]⟩), ("beta", PyVal.arr ⟨[3], [7, 8, 9]⟩)]) = true
    ∧ getParam (sanitize_custom_inits
        [("k", PyVal.num 1), ("m", PyVal.num 2), ("sigma_obs", PyVal.num 3),
         ("delta", PyVal.arr ⟨[2], [0, 0]⟩), ("beta", PyVal.arr ⟨[1], [0]⟩)]
        [("delta", PyVal.arr ⟨[2], [5, 6]⟩), ("beta", PyVal.arr ⟨[3], [7, 8, 9]⟩)]) "delta" =
        some (PyVal.arr ⟨[2], [5, 6]⟩)
    ∧ getParam (sanitize_custom_inits
        [("k", PyVal.num 1), ("m", PyVal.num 2), ("sigma_obs", PyVal.num 3),
         ("delta", PyVal.arr ⟨[2], [0, 0]⟩), ("beta", PyVal.arr ⟨[1], [0]⟩)]
        [("delta", PyVal.arr ⟨[2], [5, 6]⟩), ("beta", PyVal.arr ⟨[3], [7, 8, 9]⟩)]) "beta" =
        some (PyVal.arr ⟨[1], [0]⟩) := by
  have h := sanitize_custom_inits_vector_spec
    [("k", PyVal.num 1), ("m", PyVal.num 2), ("sigma_obs", PyVal.num 3),
     ("delta", PyVal.arr ⟨[2], [0, 0]⟩), ("beta", PyVal.arr ⟨[1], [0]⟩)]
    [("delta", PyVal.arr ⟨[2], [5, 6]⟩), ("beta", PyVal.arr ⟨[3], [7, 8, 9]⟩)]
    ⟨[2], [0, 0]⟩ ⟨[2], [5, 6]⟩ ⟨[1], [0]⟩ ⟨[3], [7, 8, 9]⟩
    (by decide) (by decide) (by decide) (by decide) (by decide) (by decide) (by decide)
  refine ⟨h.1, ?_, ?_⟩
  · have h2 := h.2.1
    rw [if_pos rfl] at h2
    exact h2
  · have h3 := h.2.2
    rw [if_neg (by decide)] at h3
    exact h3

/-! ## `CmdStanPyBackend.fit`: optimizer choice and Newton fallback

Source, `python/prophet/models.py` lines 112-140 (the optimize/fallback
skeleton; engine, data marshalling and output decoding are external to it):

```
args = dict(
    data=data_list,
    inits=inits_list,
    algorithm="Newton" if data_list["T"] < 100 else "LBFGS",
    iter=int(1e4),
)
args.update(kwargs)
try:
    self.stan_fit = self.model.optimize(**args)
except RuntimeError as e:
    # Fall back on Newton
    if not self.newton_fallback or args["algorithm"] == "Newton":
        raise e
    logger.warning("Optimization terminated abnormally. Falling back to Newton.")
    args["algorithm"] = "Newton"
    self.stan_fit = self.model.optimize(**args)
```

The engine is the oracle `optimize : String → Except E R` from algorithm name
to either a result or a raised `RuntimeError`; `logger.warning` calls are
collected in the returned list.
-/

def newtonFallbackWarning : String :=
  "Optimization terminated abnormally. Falling back to Newton."

/-- The optimize/fallback state machine of `CmdStanPyBackend.fit`:
`algoKwarg` is the caller's optional `algorithm` entry of `kwargs` (applied by
`args.update(kwargs)`), `T` the observation count `data_list["T"]`. -/
def cmdstanpy_fit_optimize {E R : Type} (newton_fallback : Bool) (T : Nat)
    (algoKwarg : Option String) (optimize : String → Except E R) :
    Except E (R × List String) :=
  let algo :=
    match algoKwarg with
    | some a => a
    | none => if T < 100 then "Newton" else "LBFGS"
  match optimize algo with
  | Except.ok r => Except.ok (r, [])
  | Except.error e =>
      if newton_fallback = false ∨ algo = "Newton" then Except.error e
      else
        match optimize "Newton" with
        | Except.ok r => Except.ok (r, [newtonFallbackWarning])
        | Except.error e2 => Except.error e2

/-- C6: with no caller algorithm override, `fit` picks Newton for small
observation counts (`T < 100`) and LBFGS otherwise; when the engine raises,
the failure propagates unchanged if fallback is disabled or the primary
strategy was already Newton; otherwise the engine is retried exactly once
with Newton after logging a warning, and that single fallback run's outcome
(success or failure) is returned with no further retries. -/
theorem cmdstanpy_fit_fallback_policy {E R : Type} (optimize : String → Except E R)
    (nf : Bool) (T : Nat) :
    (∀ r, T < 100 → optimize "Newton" = Except.ok r →
      cmdstanpy_fit_optimize nf T none optimize = Except.ok (r, []))
    ∧ (∀ e, T < 100 → optimize "Newton" = Except.error e →
      cmdstanpy_fit_optimize nf T none optimize = Except.error e)
    ∧ (∀ r, 100 ≤ T → optimize "LBFGS" = Except.ok r →
      cmdstanpy_fit_optimize nf T none optimize = Except.ok (r, []))
    ∧ (∀ e, 100 ≤ T → nf = false → optimize "LBFGS" = Except.error e →
      cmdstanpy_fit_optimize nf T none optimize = Except.error e)
    ∧ (∀ e r, 100 ≤ T → nf = true → optimize "LBFGS" = Except.error e →
      optimize "Newton" = Except.ok r →
      cmdstanpy_fit_optimize nf T none optimize = Except.ok (r, [newtonFallbackWarning]))
    ∧ (∀ e e2, 100 ≤ T → nf = true → optimize "LBFGS" = Except.error e →
      optimize "Newton" = Except.error e2 →
      cmdstanpy_fit_optimize nf T none optimize = Except.error e2) := by
  refine ⟨?_, ?_, ?_, ?_, ?_, ?_⟩
  · intro r hT hok
    simp [cmdstanpy_fit_optimize, hT, hok]
  · intro e hT herr
    simp [cmdstanpy_fit_optimize, hT, herr]
  · intro r hT hok
    simp [cmdstanpy_fit_optimize, Nat.not_lt.mpr hT, hok]
  · intro e hT hnf herr
    simp [cmdstanpy_fit_optimize, Nat.not_lt.mpr hT, hnf, herr]
  · intro e r hT hnf herr hok
    simp [cmdstanpy_fit_optimize, Nat.not_lt.mpr hT, hnf, herr, hok,
      show ¬("LBFGS" : String) = "Newton" by decide]
  · intro e e2 hT hnf herr herr2
    simp [cmdstanpy_fit_optimize, Nat.not_lt.mpr hT, hnf, herr, herr2,
      show ¬("LBFGS" : String) = "Newton" by decide]

/-- A concrete engine oracle for the C6 witness: LBFGS raises, Newton
succeeds. -/
def witnessOptimize : String → Except Nat Nat :=
  fun a => if a = "LBFGS" then Except.error 7 else Except.ok 3

/-- Witness for C6: at T = 150 with fallback enabled, the LBFGS failure
triggers exactly one Newton retry whose result is returned together with the
logged warning. -/
theorem cmdstanpy_fit_fallback_policy_witness :
    cmdstanpy_fit_optimize true 150 none witnessOptimize =
      Except.ok (3, [newtonFallbackWarning]) :=
  (cmdstanpy_fit_fallback_policy witnessOptimize true 150).2.2.2.2.1 7 3
    (by omega) rfl rfl rfl

/-! ## The backend registry (`StanBackendEnum`)

Source, `python/prophet/models.py` lines 358-367:

```
class StanBackendEnum(Enum):
    CMDSTANPY = CmdStanPyBackend
    NUMPYRO = NumpyroBackend

    @staticmethod
    def get_backend_class(name: str) -> IStanBackend:
        try:
            return StanBackendEnum[name].value
        except KeyError as e:
            raise ValueError(f"Unknown stan backend: {name}") from e
```
-/

/-- The backend implementation types the enum members carry. -/
inductive BackendClass where
  | CmdStanPyBackend
  | NumpyroBackend
deriving DecidableEq

/-- `StanBackendEnum.get_backend_class`: Python `Enum[name]` looks members up
by their exact names `CMDSTANPY` / `NUMPYRO`; a `KeyError` is converted into
`ValueError(f"Unknown stan backend: {name}")`. -/
def get_backend_class (name : String) : Except String BackendClass :=
  if name = "CMDSTANPY" then Except.ok BackendClass.CmdStanPyBackend
  else if name = "NUMPYRO" then Except.ok BackendClass.NumpyroBackend
  else Except.error ("Unknown stan backend: " ++ name)

/-- C7: registry lookup returns the matching implementation type for each of
the two recognized identifiers (exact spelling), and fails for every other
identifier with a `ValueError` whose message names that identifier. -/
theorem get_backend_class_spec :
    get_backend_class "CMDSTANPY" = Except.ok BackendClass.CmdStanPyBackend
    ∧ get_backend_class "NUMPYRO" = Except.ok BackendClass.NumpyroBackend
    ∧ ∀ name, name ≠ "CMDSTANPY" → name ≠ "NUMPYRO" →
        get_backend_class name = Except.error ("Unknown stan backend: " ++ name) := by
  refine ⟨rfl, rfl, ?_⟩
  intro name h1 h2
  simp [get_backend_class, h1, h2]

/-- Witness for C7: the unrecognized identifier `pystan` yields the
configuration error naming it. -/
theorem get_backend_class_spec_witness :
    get_backend_class "pystan" = Except.error "Unknown stan backend: pystan" :=
  get_backend_class_spec.2.2 "pystan" (by decide) (by decide)

/-! ## Draw splitting and chain defaults in `sampling`

`CmdStanPyBackend.sampling` (lines 142-165) prepares its kwargs as

```
if "chains" not in kwargs:
    kwargs["chains"] = 4
iter_half = samples // 2
kwargs["iter_sampling"] = iter_half
if "iter_warmup" not in kwargs:
    kwargs["iter_warmup"] = iter_half
```

`NumpyroBackend.sampling` (lines 314-355) merges caller kwargs into
`run_params = {"chain_method": "sequential", "progress_bar": False,
"num_chains": 4, "seed": 0, "max_tree_depth": 10}` via
`run_params.update(kwargs)` and builds the sampler with
`num_warmup=samples // 2, num_samples=samples // 2,
num_chains=run_params["num_chains"]`.  Only the numeric-valued run
parameters are modelled (`chain_method` and `progress_bar` are non-numeric
and play no role in the claims).
-/

/-- Python `d.update(kwargs)`: set each kwargs entry in order. -/
def dictUpdate {β : Type _} (d kwargs : List (String × β)) : List (String × β) :=
  kwargs.foldl (fun acc kv => dictSet acc kv.1 kv.2) d

theorem dictLookup_not_mem_none {β : Type _} (kw : List (String × β)) (k : String) :
    k ∉ kw.map Prod.fst → dictLookup kw k = none := by
  induction kw with
  | nil => intro _; rfl
  | cons hd rest ih =>
      obtain ⟨k1, v1⟩ := hd
      intro h
      simp only [List.map_cons, List.mem_cons] at h
      push_neg at h
      simp only [dictLookup, if_neg (fun hh : k1 = k => h.1 hh.symm)]
      exact ih h.2

theorem dictLookup_dictUpdate_none {β : Type _} (kw : List (String × β)) :
    ∀ (d : List (String × β)) (k : String), dictLookup kw k = none →
      dictLookup (dictUpdate d kw) k = dictLookup d k := by
  induction kw with
  | nil => intro d k _; rfl
  | cons hd rest ih =>
      obtain ⟨k1, v1⟩ := hd
      intro d k h
      simp only [dictLookup] at h
      by_cases h1 : k1 = k
      · rw [if_pos h1] at h
        exact absurd h (by simp)
      · rw [if_neg h1] at h
        show dictLookup (dictUpdate (dictSet d k1 v1) rest) k = dictLookup d k
        rw [ih (dictSet d k1 v1) k h, dictLookup_dictSet_ne _ _ _ _ (fun hh => h1 hh.symm)]

theorem dictLookup_dictUpdate_some {β : Type _} (kw : List (String × β)) :
    ∀ (d : List (String × β)) (k : String) (v : β), (kw.map Prod.fst).Nodup →
      dictLookup kw k = some v → dictLookup (dictUpdate d kw) k = some v := by
  induction kw with
  | nil => intro d k v _ h; exact absurd h (by simp [dictLookup])
  | cons hd rest ih =>
      obtain ⟨k1, v1⟩ := hd
      intro d k v hnd h
      simp only [List.map_cons, List.nodup_cons] at hnd
      simp only [dictLookup] at h
      by_cases h1 : k1 = k
      · subst h1
        rw [if_pos rfl] at h
        have hv : v1 = v := by simpa using h
        subst hv
        have hrest : dictLookup rest k1 = none := dictLookup_not_mem_none rest k1 hnd.1
        show dictLookup (dictUpdate (dictSet d k1 v1) rest) k1 = some v1
        rw [dictLookup_dictUpdate_none rest _ _ hrest, dictLookup_dictSet_self]
      · rw [if_neg h1] at h
        exact ih (dictSet d k1 v1) k v hnd.2 h

/-- The kwargs preparation of `CmdStanPyBackend.sampling`: chain default,
draw-count split, warmup default.  Note `iter_sampling` is always overwritten
with `samples // 2`, while `chains` and `iter_warmup` are only defaulted. -/
def cmdstanpy_sampling_kwargs (samples : Nat) (kwargs : List (String × Nat)) :
    List (String × Nat) :=
  let kwargs1 := if dictContainsKey kwargs "chains" then kwargs
                 else dictSet kwargs "chains" 4
  let iter_half := samples / 2
  let kwargs2 := dictSet kwargs1 "iter_sampling" iter_half
  if dictContainsKey kwargs2 "iter_warmup" then kwargs2
  else dictSet kwargs2 "iter_warmup" iter_half

/-- The sampler arguments `NumpyroBackend.sampling` passes to `MCMC(...)`. -/
structure McmcArgs where
  num_warmup : Nat
  num_samples : Nat
  num_chains : Nat
deriving DecidableEq

/-- The numeric entries of the Numpyro `run_params` defaults. -/
def numpyro_run_params : List (String × Nat) :=
  [("num_chains", 4), ("seed", 0), ("max_tree_depth", 10)]

/-- The `run_params.update(kwargs)` merge followed by the `MCMC(...)`
construction of `NumpyroBackend.sampling`; `run_params["num_chains"]` is
always present, the `getD 0` default is unreachable. -/
def numpyro_sampling_mcmc_args (samples : Nat) (kwargs : List (String × Nat)) :
    McmcArgs :=
  let run_params := dictUpdate numpyro_run_params kwargs
  { num_warmup := samples / 2
    num_samples := samples / 2
    num_chains := (dictLookup run_params "num_chains").getD 0 }

theorem cmdstan_kwargs_iter_sampling (samples : Nat) (kwargs : List (String × Nat)) :
    dictLookup (cmdstanpy_sampling_kwargs samples kwargs) "iter_sampling" =
      some (samples / 2) := by
  unfold cmdstanpy_sampling_kwargs
  set K1 := if dictContainsKey kwargs "chains" then kwargs
            else dictSet kwargs "chains" 4 with hK1
  by_cases hw : dictContainsKey (dictSet K1 "iter_sampling" (samples / 2)) "iter_warmup"
  · simp only [hw, if_true]
    exact dictLookup_dictSet_self _ _ _
  · simp only [hw, if_false, Bool.false_eq_true]
    rw [dictLookup_dictSet_ne _ _ _ _ (by decide), dictLookup_dictSet_self]

theorem cmdstan_kwargs_warmup_default (samples : Nat) (kwargs : List (String × Nat))
    (h : dictLookup kwargs "iter_warmup" = none) :
    dictLookup (cmdstanpy_sampling_kwargs samples kwargs) "iter_warmup" =
      some (samples / 2) := by
  unfold cmdstanpy_sampling_kwargs
  set K1 := if dictContainsKey kwargs "chains" then kwargs
            else dictSet kwargs "chains" 4 with hK1
  have hK1w : dictLookup K1 "iter_warmup" = none := by
    rw [hK1]
    by_cases hc : dictContainsKey kwargs "chains"
    · simpa [hc] using h
    · simp only [hc, if_false, Bool.false_eq_true]
      rw [dictLookup_dictSet_ne _ _ _ _ (by decide)]
      exact h
  have hK2w : dictLookup (dictSet K1 "iter_sampling" (samples / 2)) "iter_warmup" = none := by
    rw [dictLookup_dictSet_ne _ _ _ _ (by decide)]
    exact hK1w
  have hw : dictContainsKey (dictSet K1 "iter_sampling" (samples / 2)) "iter_warmup" = false := by
    rw [dictContainsKey_eq_isSome, hK2w]
    rfl
  simp only [hw, if_false, Bool.false_eq_true]
  exact dictLookup_dictSet_self _ _ _

theorem cmdstan_kwargs_warmup_override (samples : Nat) (kwargs : List (String × Nat))
    (w : Nat) (h : dictLookup kwargs "iter_warmup" = some w) :
    dictLookup (cmdstanpy_sampling_kwargs samples kwargs) "iter_warmup" = some w := by
  unfold cmdstanpy_sampling_kwargs
  set K1 := if dictContainsKey kwargs "chains" then kwargs
            else dictSet kwargs "chains" 4 with hK1
  have hK1w : dictLookup K1 "iter_warmup" = some w := by
    rw [hK1]
    by_cases hc : dictContainsKey kwargs "chains"
    · simpa [hc] using h
    · simp only [hc, if_false, Bool.false_eq_true]
      rw [dictLookup_dictSet_ne _ _ _ _ (by decide)]
      exact h
  have hK2w : dictLookup (dictSet K1 "iter_sampling" (samples / 2)) "iter_warmup" = some w := by
    rw [dictLookup_dictSet_ne _ _ _ _ (by decide)]
    exact hK1w
  have hw : dictContainsKey (dictSet K1 "iter_sampling" (samples / 2)) "iter_warmup" = true := by
    rw [dictContainsKey_eq_isSome, hK2w]
    rfl
  simp only [hw, if_true]
  exact hK2w

theorem cmdstan_kwargs_chains_default (samples : Nat) (kwargs : List (String × Nat))
    (h : dictLookup kwargs "chains" = none) :
    dictLookup (cmdstanpy_sampling_kwargs samples kwargs) "chains" = some 4 := by
  unfold cmdstanpy_sampling_kwargs
  have hc : dictContainsKey kwargs "chains" = false := by
    rw [dictContainsKey_eq_isSome, h]
    rfl
  simp only [hc, if_false, Bool.false_eq_true]
  have hK1 : dictLookup (dictSet kwargs "chains" 4) "chains" = some 4 :=
    dictLookup_dictSet_self _ _ _
  have hK2 : dictLookup (dictSet (dictSet kwargs "chains" 4) "iter_sampling" (samples / 2))
      "chains" = some 4 := by
    rw [dictLookup_dictSet_ne _ _ _ _ (by decide)]
    exact hK1
  by_cases hw : dictContainsKey
      (dictSet (dictSet kwargs "chains" 4) "iter_sampling" (samples / 2)) "iter_warmup"
  · simp only [hw, if_true]
    exact hK2
  · simp only [hw, if_false, Bool.false_eq_true]
    rw [dictLookup_dictSet_ne _ _ _ _ (by decide)]
    exact hK2

theorem cmdstan_kwargs_chains_override (samples : Nat) (kwargs : List (String × Nat))
    (c : Nat) (h : dictLookup kwargs "chains" = some c) :
    dictLookup (cmdstanpy_sampling_kwargs samples kwargs) "chains" = some c := by
  unfold cmdstanpy_sampling_kwargs
  have hc : dictContainsKey kwargs "chains" = true := by
    rw [dictContainsKey_eq_isSome, h]
    rfl
  simp only [hc, if_true]
  have hK2 : dictLookup (dictSet kwargs "iter_sampling" (samples / 2)) "chains" = some c := by
    rw [dictLookup_dictSet_ne _ _ _ _ (by decide)]
    exact h
  by_cases hw : dictContainsKey (dictSet kwargs "iter_sampling" (samples / 2)) "iter_warmup"
  · simp only [hw, if_true]
    exact hK2
  · simp only [hw, if_false, Bool.false_eq_true]
    rw [dictLookup_dictSet_ne _ _ _ _ (by decide)]
    exact hK2

/-- C8: `CmdStanPyBackend.sampling` requests `samples // 2` post-warmup draws,
defaults the warmup draw count to `samples // 2` unless the caller supplied
one (in which case the caller's value stands), and defaults to 4 chains unless
the caller overrides the chain count; `NumpyroBackend.sampling` likewise uses
warmup and post-warmup counts each equal to `samples // 2` (and the same
4-chain default). -/
theorem sampling_draw_split_spec (samples : Nat) (kwargs kw2 : List (String × Nat)) :
    dictLookup (cmdstanpy_sampling_kwargs samples kwargs) "iter_sampling" =
      some (samples / 2)
    ∧ (dictLookup kwargs "iter_warmup" = none →
        dictLookup (cmdstanpy_sampling_kwargs samples kwargs) "iter_warmup" =
          some (samples / 2))
    ∧ (∀ w, dictLookup kwargs "iter_warmup" = some w →
        dictLookup (cmdstanpy_sampling_kwargs samples kwargs) "iter_warmup" = some w)
    ∧ (dictLookup kwargs "chains" = none →
        dictLookup (cmdstanpy_sampling_kwargs samples kwargs) "chains" = some 4)
    ∧ (∀ c, dictLookup kwargs "chains" = some c →
        dictLookup (cmdstanpy_sampling_kwargs samples kwargs) "chains" = some c)
    ∧ (numpyro_sampling_mcmc_args samples kw2).num_warmup = samples / 2
    ∧ (numpyro_sampling_mcmc_args samples kw2).num_samples = samples / 2
    ∧ (dictLookup kw2 "num_chains" = none →
        (numpyro_sampling_mcmc_args samples kw2).num_chains = 4)
    ∧ ((kw2.map Prod.fst).Nodup → ∀ c, dictLookup kw2 "num_chains" = some c →
        (numpyro_sampling_mcmc_args samples kw2).num_chains = c) := by
  refine ⟨cmdstan_kwargs_iter_sampling samples kwargs,
    cmdstan_kwargs_warmup_default samples kwargs,
    fun w h => cmdstan_kwargs_warmup_override samples kwargs w h,
    cmdstan_kwargs_chains_default samples kwargs,
    fun c h => cmdstan_kwargs_chains_override samples kwargs c h,
    rfl, rfl, ?_, ?_⟩
  · intro h
    show (dictLookup (dictUpdate numpyro_run_params kw2) "num_chains").getD 0 = 4
    rw [dictLookup_dictUpdate_none kw2 numpyro_run_params "num_chains" h]
    rfl
  · intro hnd c h
    show (dictLookup (dictUpdate numpyro_run_params kw2) "num_chains").getD 0 = c
    rw [dictLookup_dictUpdate_some kw2 numpyro_run_params "num_chains" c hnd h]
    rfl

/-- Witness for C8: 1000 requested draws split into 500 post-warmup draws,
a caller-supplied warmup of 77 is kept, chains default to 4; Numpyro halves
likewise. -/
theorem sampling_draw_split_spec_witness :
    dictLookup (cmdstanpy_sampling_kwargs 1000 [("iter_warmup", 77)]) "iter_sampling" =
      some 500
    ∧ dictLookup (cmdstanpy_sampling_kwargs 1000 [("iter_warmup", 77)]) "iter_warmup" =
      some 77
    ∧ dictLookup (cmdstanpy_sampling_kwargs 1000 [("iter_warmup", 77)]) "chains" = some 4
    ∧ (numpyro_sampling_mcmc_args 1000 []).num_warmup = 500
    ∧ (numpyro_sampling_mcmc_args 1000 []).num_samples = 500
    ∧ (numpyro_sampling_mcmc_args 1000 []).num_chains = 4 := by
  have h := sampling_draw_split_spec 1000 [("iter_warmup", 77)] []
  exact ⟨h.1, h.2.2.1 77 rfl, h.2.2.2.1 rfl, h.2.2.2.2.2.1, h.2.2.2.2.2.2.1,
    h.2.2.2.2.2.2.2.1 rfl⟩
